import Mathlib

/-!
Verification of the Docker MCP orchestrator (a resilient JSON-RPC client
multiplexer).  The definitions below are a shallow embedding of the
TypeScript source: the orchestrator of `src/index.ts` together with the
modularised variant (`mcpClient/mcp_client.ts`, the handler and
orchestrator modules).  Machine-level concerns (child processes, timers,
the event loop) are modelled by explicit state passing; the asynchronous
callbacks of the source become pure transition functions on the client
state, instrumented with a log of promise resolutions.
-/

/-- Outcome recorded when a PendingCall is settled: the source either calls
resolve with the JSON-RPC result, or reject with a remote error message, or
reject from the timeout timer.  The constructor transportClosed appears in
the error taxonomy of the design but is not produced anywhere in the code;
it is included so that its absence can be stated. -/
inductive Resolution where
  | success
  | remoteError
  | rpcTimeout
  | transportClosed
  deriving DecidableEq, Repr

/-- Container block of an endpoint descriptor (MCPConfig.container). -/
structure ContainerConfig where
  name : String
  command : Option (List String)
  workdir : Option String
  deriving DecidableEq, Repr

/-- Health-check overrides of an endpoint descriptor (MCPConfig.healthCheck). -/
structure HealthCheckConfig where
  interval : Option Nat
  timeout : Option Nat
  deriving DecidableEq, Repr

/-- Endpoint descriptor (interface MCPConfig in src/index.ts and types/mcp.ts). -/
structure MCPConfig where
  name : String
  capabilities : List String
  container : ContainerConfig
  healthCheck : Option HealthCheckConfig
  deriving DecidableEq, Repr

/-- Runtime state of one connection (interface MCPClient).  The process
handle becomes the flag hasProcess; pendingRequests keeps the ids of the
registered pending entries (the Map keys); resolvedLog instruments every
resolve or reject performed on a pending entry, in order. -/
structure MCPClient where
  config : MCPConfig
  hasProcess : Bool
  isReady : Bool
  requestId : Nat
  pendingRequests : List Nat
  messageBuffer : List Char
  resolvedLog : List (Nat × Resolution)
  deriving DecidableEq, Repr

/-- The client literal built at the start of connectToDockerMCP and
connectToMCP: process null then attached, isReady false, requestId 0,
empty pending map, empty buffer. -/
def freshClient (cfg : MCPConfig) : MCPClient :=
  { config := cfg
    hasProcess := true
    isReady := false
    requestId := 0
    pendingRequests := []
    messageBuffer := []
    resolvedLog := [] }

/-- A sample endpoint descriptor used by concrete witnesses. -/
def sampleConfig : MCPConfig :=
  { name := "github"
    capabilities := ["repository"]
    container := { name := "github-mcp", command := none, workdir := none }
    healthCheck := none }

/-! ### Reconnection with backoff (scheduleReconnect, src/index.ts 306-333) -/

/-- private readonly maxReconnectAttempts = 5. -/
def maxReconnectAttempts : Nat := 5

/-- The delay computed in scheduleReconnect:
Math.min(5000 * Math.pow(2, attempts), 60000). -/
def reconnectDelay (attempts : Nat) : Nat :=
  min (5000 * 2 ^ attempts) 60000

/-- scheduleReconnect: returns the scheduled delay, or none when no timer is
set.  It returns early when the client still has a process (already
reconnecting) or when the attempt counter has reached the maximum. -/
def scheduleReconnect (hasProcess : Bool) (attempts : Nat) : Option Nat :=
  if hasProcess then none
  else if maxReconnectAttempts ≤ attempts then none
  else some (reconnectDelay attempts)

/-- The update of the reconnectAttempts counter after one reconnection
cycle: set to 0 on success (line 326), to attempts + 1 on failure
(line 329). -/
def reconnectStep (attempts : Nat) (success : Bool) : Nat :=
  if success then 0 else attempts + 1

/-- The sequence of delays scheduled during a run of k consecutive failed
reconnection cycles starting from the given attempt counter: each failed
cycle increments the counter (reconnectStep _ false) and re-enters
scheduleReconnect, which stops scheduling once the maximum is reached. -/
def failureRunDelays : Nat → Nat → List Nat
  | _, 0 => []
  | attempts, k + 1 =>
    match scheduleReconnect false attempts with
    | none => []
    | some d => d :: failureRunDelays (reconnectStep attempts false) k

theorem scheduleReconnect_lt (a : Nat) (h : a < maxReconnectAttempts) :
    scheduleReconnect false a = some (reconnectDelay a) := by
  simp [scheduleReconnect, Nat.not_le.mpr h]

theorem scheduleReconnect_ge (a : Nat) (h : maxReconnectAttempts ≤ a) :
    scheduleReconnect false a = none := by
  simp [scheduleReconnect, h]

theorem failureRunDelays_eq (a k : Nat) :
    failureRunDelays a k =
      ((List.range (min k (maxReconnectAttempts - a))).map
        (fun n => reconnectDelay (a + n))) := by
  induction k generalizing a with
  | zero => simp [failureRunDelays]
  | succ k ih =>
    by_cases h : maxReconnectAttempts ≤ a
    · have hsub : maxReconnectAttempts - a = 0 := Nat.sub_eq_zero_of_le h
      simp [failureRunDelays, scheduleReconnect_ge a h, hsub]
    · have hlt : a < maxReconnectAttempts := Nat.not_le.mp h
      have hsub : maxReconnectAttempts - a = (maxReconnectAttempts - (a + 1)) + 1 := by
        omega
      rw [failureRunDelays, scheduleReconnect_lt a hlt]
      have hstep : reconnectStep a false = a + 1 := rfl
      rw [hstep, ih (a + 1), hsub]
      have hmin : (k + 1) ⊓ (maxReconnectAttempts - (a + 1) + 1) =
          (k ⊓ (maxReconnectAttempts - (a + 1))) + 1 := by
        omega
      rw [hmin, List.range_succ_eq_map]
      simp only
      simp only [List.map_cons, List.map_map, Nat.add_zero]
      refine congrArg (reconnectDelay a :: ·) ?_
      refine List.map_congr_left ?_
      intro n _
      simp [Function.comp, Nat.add_comm, Nat.add_left_comm, Nat.add_assoc]

/-- Claim C5: for a run of consecutive failed reconnection cycles starting
with a zero attempt counter, the delay before attempt n is
min(5000ms * 2^n, 60000ms); the counter resets to zero on a successful
reconnect; and after 5 consecutive failures no further reconnection is
scheduled (the run of scheduled delays is cut off at 5). -/
theorem reconnect_backoff_spec :
    (∀ k : Nat, failureRunDelays 0 k =
      (List.range (min k 5)).map (fun n => min (5000 * 2 ^ n) 60000)) ∧
    (∀ a : Nat, reconnectStep a true = 0) ∧
    (∀ a : Nat, 5 ≤ a → scheduleReconnect false a = none) := by
  refine ⟨fun k => ?_, fun a => rfl, fun a h => scheduleReconnect_ge a h⟩
  have := failureRunDelays_eq 0 k
  simpa [reconnectDelay, maxReconnectAttempts] using this

/-- Witness for C5: the delays of a long run of failures are the five capped
exponential delays and nothing more. -/
theorem reconnect_backoff_spec_witness :
    failureRunDelays 0 8 = [5000, 10000, 20000, 40000, 60000] ∧
    reconnectStep 3 true = 0 ∧ scheduleReconnect false 5 = none := by
  refine ⟨?_, reconnect_backoff_spec.2.1 3, reconnect_backoff_spec.2.2 5 (by norm_num)⟩
  have h := reconnect_backoff_spec.1 8
  rw [h]
  decide

/-! ### Correlation engine: id allocation and pending registration
(sendMCPRequest, src/index.ts 247-281 and mcpClient/mcp_client.ts 26-60) -/

/-- The first half of sendMCPRequest: requestId = ++client.requestId
allocates the next id and pendingRequests.set(requestId, ...) registers the
pending entry with its armed timeout.  Returns the allocated id with the
updated client. -/
def sendMCPRequest_alloc (c : MCPClient) : Nat × MCPClient :=
  (c.requestId + 1,
   { c with
      requestId := c.requestId + 1
      pendingRequests := c.pendingRequests ++ [c.requestId + 1] })

/-- The ids handed out by n successive calls of sendMCPRequest on one
client, with the client state threaded through. -/
def allocRun (c : MCPClient) : Nat → List Nat × MCPClient
  | 0 => ([], c)
  | n + 1 =>
    let (id₁, c₁) := sendMCPRequest_alloc c
    let (ids, c₂) := allocRun c₁ n
    (id₁ :: ids, c₂)

theorem allocRun_ids (c : MCPClient) (n : Nat) :
    (allocRun c n).1 = (List.range n).map (fun k => c.requestId + 1 + k) := by
  induction n generalizing c with
  | zero => simp [allocRun]
  | succ n ih =>
    rw [allocRun, List.range_succ_eq_map]
    simp only [sendMCPRequest_alloc, ih, List.map_cons, List.map_map]
    refine congrArg₂ (· :: ·) (by simp) ?_
    refine List.map_congr_left ?_
    intro k _
    simp [Function.comp]
    omega

/-- Claim C8: within one lifetime segment of a connection the request ids of
successive calls are strictly increasing (hence pairwise distinct, never
reused), and a reconnect builds a fresh client whose counter starts at 0,
so ids after reattachment restart from 1. -/
theorem request_ids_monotone :
    (∀ (c : MCPClient) (n : Nat), List.Pairwise (· < ·) (allocRun c n).1) ∧
    (∀ (cfg : MCPConfig) (n : Nat),
      (allocRun (freshClient cfg) n).1 = (List.range n).map (· + 1)) ∧
    (∀ cfg : MCPConfig, (freshClient cfg).requestId = 0) := by
  refine ⟨fun c n => ?_, fun cfg n => ?_, fun cfg => rfl⟩
  · rw [allocRun_ids]
    refine List.pairwise_map.mpr ?_
    exact (List.pairwise_lt_range n).imp (fun h => by omega)
  · rw [allocRun_ids]
    simp [freshClient, Nat.add_comm]

/-! ### Correlation engine: response matching and timeout eviction
(handleMCPResponse, src/index.ts 198-210; the setTimeout callback of
sendMCPRequest, src/index.ts 262-265) -/

/-- An inbound JSON-RPC message as inspected by handleMCPResponse: its id
field (0 standing for an absent or zero id, both falsy in the source) and
whether the error field is set. -/
structure RpcResponse where
  id : Nat
  isError : Bool
  deriving DecidableEq, Repr

/-- handleMCPResponse: if (response.id && pendingRequests.has(response.id))
then the entry is deleted, its timeout cleared, and the promise rejected
(error field set) or resolved (result); any other message is ignored.
Clearing the timeout is modelled by the erasure itself: a timer can fire
only while its id is still registered. -/
def handleMCPResponse (c : MCPClient) (r : RpcResponse) : MCPClient :=
  if r.id ≠ 0 ∧ r.id ∈ c.pendingRequests then
    { c with
        pendingRequests := c.pendingRequests.erase r.id
        resolvedLog := c.resolvedLog ++
          [(r.id, if r.isError then Resolution.remoteError else Resolution.success)] }
  else c

/-- The timeout timer of one pending request firing: the source callback
deletes the entry and rejects with a timeout error.  The timer is armed
exactly while its id is registered (handleMCPResponse clears it on a
match), so a fire is a no-op for an unregistered id. -/
def timeoutFire (c : MCPClient) (id : Nat) : MCPClient :=
  if id ∈ c.pendingRequests then
    { c with
        pendingRequests := c.pendingRequests.erase id
        resolvedLog := c.resolvedLog ++ [(id, Resolution.rpcTimeout)] }
  else c

theorem handleMCPResponse_not_mem (c : MCPClient) (r : RpcResponse)
    (h : r.id ∉ c.pendingRequests) : handleMCPResponse c r = c := by
  simp [handleMCPResponse, h]

theorem timeoutFire_not_mem (c : MCPClient) (id : Nat)
    (h : id ∉ c.pendingRequests) : timeoutFire c id = c := by
  simp [timeoutFire, h]

theorem nodup_not_mem_erase {l : List Nat} (hl : l.Nodup) (a : Nat) :
    a ∉ l.erase a := by
  intro h
  exact absurd ((List.Nodup.mem_erase_iff hl).mp h).1 (by simp)

/-- Claim C9: every PendingCall is resolved at most once.  With a duplicate-
free pending map (the source uses a Map, whose keys are unique): a message
whose id matches no pending call is discarded without changing anything; a
matching response appends exactly one resolution for its id and removes it,
after which a duplicate of the same response is a no-op and the timeout of
that id firing is a no-op; a response arriving after the timeout already
evicted the id is a no-op; and handling one id never changes whether any
other id is registered. -/
theorem pending_resolved_once (c : MCPClient) (r : RpcResponse)
    (hc : c.pendingRequests.Nodup) :
    (r.id ∉ c.pendingRequests → handleMCPResponse c r = c) ∧
    (r.id ≠ 0 → r.id ∈ c.pendingRequests →
      (handleMCPResponse c r).resolvedLog = c.resolvedLog ++
        [(r.id, if r.isError then Resolution.remoteError else Resolution.success)] ∧
      r.id ∉ (handleMCPResponse c r).pendingRequests ∧
      handleMCPResponse (handleMCPResponse c r) r = handleMCPResponse c r ∧
      timeoutFire (handleMCPResponse c r) r.id = handleMCPResponse c r) ∧
    (∀ id, id ∈ c.pendingRequests →
      handleMCPResponse (timeoutFire c id) ⟨id, r.isError⟩ = timeoutFire c id) ∧
    (∀ j, j ≠ r.id →
      (j ∈ (handleMCPResponse c r).pendingRequests ↔ j ∈ c.pendingRequests)) := by
  refine ⟨handleMCPResponse_not_mem c r, ?_, ?_, ?_⟩
  · intro hne hmem
    have hguard : r.id ≠ 0 ∧ r.id ∈ c.pendingRequests := ⟨hne, hmem⟩
    have hstep : handleMCPResponse c r =
        { c with
            pendingRequests := c.pendingRequests.erase r.id
            resolvedLog := c.resolvedLog ++
              [(r.id, if r.isError then Resolution.remoteError else Resolution.success)] } := by
      simp [handleMCPResponse, hguard]
    have hnot : r.id ∉ (handleMCPResponse c r).pendingRequests := by
      rw [hstep]
      exact nodup_not_mem_erase hc r.id
    refine ⟨by rw [hstep], hnot, handleMCPResponse_not_mem _ r hnot, timeoutFire_not_mem _ r.id hnot⟩
  · intro id hmem
    by_cases h0 : id ∈ c.pendingRequests
    · have hstep : timeoutFire c id =
          { c with
              pendingRequests := c.pendingRequests.erase id
              resolvedLog := c.resolvedLog ++ [(id, Resolution.rpcTimeout)] } := by
        simp [timeoutFire, h0]
      refine handleMCPResponse_not_mem _ _ ?_
      rw [hstep]
      exact nodup_not_mem_erase hc id
    · exact absurd hmem h0
  · intro j hj
    unfold handleMCPResponse
    by_cases hguard : r.id ≠ 0 ∧ r.id ∈ c.pendingRequests
    · simp only [if_pos hguard]
      exact List.mem_erase_of_ne hj
    · rw [if_neg hguard]

/-- A concrete client with two in-flight calls, for witnesses. -/
def clientWithTwoPending : MCPClient :=
  { freshClient sampleConfig with requestId := 2, pendingRequests := [1, 2] }

/-- Witness for C9: on a client with pending calls 1 and 2, the response for
id 1 resolves exactly that call once, removes it, and leaves call 2
registered. -/
theorem pending_resolved_once_witness :
    clientWithTwoPending.pendingRequests.Nodup ∧
    (handleMCPResponse clientWithTwoPending ⟨1, false⟩).resolvedLog =
      [(1, Resolution.success)] ∧
    (1 : Nat) ∉ (handleMCPResponse clientWithTwoPending ⟨1, false⟩).pendingRequests ∧
    ((2 : Nat) ∈ (handleMCPResponse clientWithTwoPending ⟨1, false⟩).pendingRequests ↔
      (2 : Nat) ∈ clientWithTwoPending.pendingRequests) := by
  have h := pending_resolved_once clientWithTwoPending ⟨1, false⟩ (by decide)
  obtain ⟨-, h2, -, h4⟩ := h
  have hm := h2 (by decide) (by decide)
  exact ⟨by decide, by simpa using hm.1, hm.2.1, h4 2 (by decide)⟩

/-! ### Process exit and shutdown (setupProcessHandlers, src/index.ts
152-179; stop, src/index.ts 835-847) -/

/-- The exit listener installed by setupProcessHandlers: on process exit the
source sets isReady = false and process = null and calls scheduleReconnect.
It touches neither pendingRequests nor any pending promise: no resolve or
reject is invoked, so nothing is appended to the resolution log. -/
def onProcessExit (c : MCPClient) : MCPClient :=
  { c with isReady := false, hasProcess := false }

/-- stop applied to one client: it kills the live process (whose exit event
then runs the exit listener) and nothing else; the health-check interval
clearing happens outside the clients. -/
def stopClient (c : MCPClient) : MCPClient :=
  if c.hasProcess then onProcessExit c else c

/-- Closed counterexample to claim C2: a connection with calls 1 and 2
pending whose process exits.  No pending call fails with TransportClosed:
the pending map is untouched and the resolution log stays empty, so both
calls remain unresolved until their own timeouts. -/
theorem transport_closed_missing_counterexample :
    (onProcessExit clientWithTwoPending).pendingRequests = [1, 2] ∧
    (onProcessExit clientWithTwoPending).resolvedLog = [] ∧
    (stopClient clientWithTwoPending).pendingRequests = [1, 2] ∧
    (stopClient clientWithTwoPending).resolvedLog = [] := by
  refine ⟨rfl, rfl, ?_, ?_⟩ <;> rfl

/-- Claim C2 as amended: neither a process exit nor a shutdown resolves any
still-pending call.  The exit listener and stop leave the pending map and
the resolution log unchanged, and a pending call is settled only when its
own timeout later fires, which rejects it with the timeout error (not with
TransportClosed). -/
theorem exit_leaves_pending_calls (c : MCPClient) :
    (onProcessExit c).pendingRequests = c.pendingRequests ∧
    (onProcessExit c).resolvedLog = c.resolvedLog ∧
    (stopClient c).pendingRequests = c.pendingRequests ∧
    (stopClient c).resolvedLog = c.resolvedLog ∧
    (∀ id, id ∈ c.pendingRequests →
      (timeoutFire (onProcessExit c) id).resolvedLog =
        c.resolvedLog ++ [(id, Resolution.rpcTimeout)]) := by
  refine ⟨rfl, rfl, ?_, ?_, ?_⟩
  · unfold stopClient
    by_cases h : c.hasProcess <;> simp [h, onProcessExit]
  · unfold stopClient
    by_cases h : c.hasProcess <;> simp [h, onProcessExit]
  · intro id hmem
    simp [timeoutFire, onProcessExit, hmem]

/-- Witness for C2 (amended): on the concrete client with calls 1 and 2
pending, the exit handler preserves both and the timeout of call 1 is what
finally rejects it. -/
theorem exit_leaves_pending_calls_witness :
    (onProcessExit clientWithTwoPending).pendingRequests =
      clientWithTwoPending.pendingRequests ∧
    (timeoutFire (onProcessExit clientWithTwoPending) 1).resolvedLog =
      [(1, Resolution.rpcTimeout)] := by
  have h := exit_leaves_pending_calls clientWithTwoPending
  refine ⟨h.1, ?_⟩
  have := h.2.2.2.2 1 (by decide)
  simpa using this

/-! ### Handshake (initializeMCPClient, src/index.ts 233-245; the initialize
branch of the modular orchestrator) -/

/-- initializeMCPClient on its success path.  Both the initialize call and
the initialized message go through sendMCPRequest, which allocates the next
request id, registers a pending entry and suspends until the matching reply
resolves it (modelled by handleMCPResponse on the success reply).  Only
after the reply to the initialized message is consumed does the source set
isReady = true.  Returns the updated client and the (method, allocated id)
pairs that were sent. -/
def initializeMCPClient (c : MCPClient) : MCPClient × List (String × Nat) :=
  let (id₁, c₁) := sendMCPRequest_alloc c
  let c₁' := handleMCPResponse c₁ ⟨id₁, false⟩
  let (id₂, c₂) := sendMCPRequest_alloc c₁'
  let c₂' := handleMCPResponse c₂ ⟨id₂, false⟩
  ({ c₂' with isReady := true }, [("initialize", id₁), ("initialized", id₂)])

/-- Claim C3 evaluation (the code diverges from the claim): during the
handshake of a fresh connection the initialized message is not a bare
notification — the source allocates request id 2 for it, registers it as a
pending call, and readiness is reached only after a reply to id 2 is
consumed (the resolution log records a response for id 2 before isReady is
true).  The claim states that no id is allocated and no response awaited. -/
theorem initialized_allocates_request_id :
    (initializeMCPClient (freshClient sampleConfig)).2 =
      [("initialize", 1), ("initialized", 2)] ∧
    (initializeMCPClient (freshClient sampleConfig)).1.requestId = 2 ∧
    (initializeMCPClient (freshClient sampleConfig)).1.resolvedLog =
      [(1, Resolution.success), (2, Resolution.success)] ∧
    (initializeMCPClient (freshClient sampleConfig)).1.isReady = true := by
  refine ⟨?_, ?_, ?_, ?_⟩ <;> rfl

/-! ### Fan-out executor (executeTask, src/index.ts 507-550; step 4 of
orchestrateTask, src/index.ts 673-687) -/

/-- Outcome of the tools/call RPC issued for one step, as settled by the
correlation engine: the resolved result, or the message of the failure
(remote error, timeout, or write error). -/
inductive RpcOutcome where
  | ok (result : String)
  | err (message : String)
  deriving DecidableEq, Repr

/-- interface ExecutionResult (src/index.ts 37-45). -/
structure ExecutionResult where
  stepId : String
  mcp : String
  tool : String
  status : String
  result : Option String
  error : Option String
  duration : Nat
  deriving DecidableEq, Repr

/-- this.mcpClients.get(name) on the registry of connections, modelled as an
association list keyed by endpoint name. -/
def lookupClient (clients : List (String × MCPClient)) (name : String) :
    Option MCPClient :=
  match clients with
  | [] => none
  | (k, c) :: rest => if k = name then some c else lookupClient rest name

/-- executeTask: look the named connection up; when it is absent or not
ready, return the error result immediately (no call is attempted); otherwise
issue the tools/call request and map its outcome to a success or error
result.  The second component lists the RPC calls issued on connections:
pairs of endpoint name and method. -/
def executeTask (clients : List (String × MCPClient))
    (outcome : String → String → RpcOutcome) (dur : Nat)
    (mcpName toolName : String) : ExecutionResult × List (String × String) :=
  match lookupClient clients mcpName with
  | none =>
    ({ stepId := mcpName ++ "_" ++ toolName, mcp := mcpName, tool := toolName,
       status := "error", result := none, error := some "MCP not available",
       duration := dur }, [])
  | some client =>
    if client.isReady then
      match outcome mcpName toolName with
      | RpcOutcome.ok r =>
        ({ stepId := mcpName ++ "_" ++ toolName, mcp := mcpName, tool := toolName,
           status := "success", result := some r, error := none,
           duration := dur }, [(mcpName, "tools/call")])
      | RpcOutcome.err m =>
        ({ stepId := mcpName ++ "_" ++ toolName, mcp := mcpName, tool := toolName,
           status := "error", result := none, error := some m,
           duration := dur }, [(mcpName, "tools/call")])
    else
      ({ stepId := mcpName ++ "_" ++ toolName, mcp := mcpName, tool := toolName,
         status := "error", result := none, error := some "MCP not available",
         duration := dur }, [])

/-- Closed counterexample to claim C1: a step naming a connection that does
not exist.  The executor does return an immediate error without attempting
a call, but its message is "MCP not available", not the claimed
"endpoint not available". -/
theorem endpoint_unavailable_message_counterexample :
    lookupClient [] "github" = none ∧
    (executeTask [] (fun _ _ => RpcOutcome.ok "r") 0 "github" "create_repo").1.status
      = "error" ∧
    (executeTask [] (fun _ _ => RpcOutcome.ok "r") 0 "github" "create_repo").1.error
      ≠ some "endpoint not available" ∧
    (executeTask [] (fun _ _ => RpcOutcome.ok "r") 0 "github" "create_repo").1.error
      = some "MCP not available" := by
  refine ⟨rfl, rfl, ?_, rfl⟩
  decide

/-- Claim C1 as amended: for every step whose named connection is missing or
not ready, the executor immediately produces an ExecutionResult with status
"error" and message "MCP not available", and issues no RPC call on any
connection. -/
theorem unavailable_endpoint_no_call (clients : List (String × MCPClient))
    (outcome : String → String → RpcOutcome) (dur : Nat)
    (mcpName toolName : String)
    (h : lookupClient clients mcpName = none ∨
      ∃ c, lookupClient clients mcpName = some c ∧ c.isReady = false) :
    (executeTask clients outcome dur mcpName toolName).1.status = "error" ∧
    (executeTask clients outcome dur mcpName toolName).1.error =
      some "MCP not available" ∧
    (executeTask clients outcome dur mcpName toolName).2 = [] := by
  rcases h with h | ⟨c, hc, hready⟩
  · simp [executeTask, h]
  · simp [executeTask, hc, hready]

/-- Witness for C1 (amended): a registered but not yet ready connection. -/
theorem unavailable_endpoint_no_call_witness :
    (lookupClient [("github", freshClient sampleConfig)] "github" =
      some (freshClient sampleConfig) ∧
     (freshClient sampleConfig).isReady = false) ∧
    (executeTask [("github", freshClient sampleConfig)]
      (fun _ _ => RpcOutcome.ok "r") 7 "github" "create_repo").1.error =
      some "MCP not available" ∧
    (executeTask [("github", freshClient sampleConfig)]
      (fun _ _ => RpcOutcome.ok "r") 7 "github" "create_repo").2 = [] := by
  have h := unavailable_endpoint_no_call [("github", freshClient sampleConfig)]
    (fun _ _ => RpcOutcome.ok "r") 7 "github" "create_repo"
    (Or.inr ⟨freshClient sampleConfig, rfl, rfl⟩)
  exact ⟨⟨rfl, rfl⟩, h.2.1, h.2.2⟩

/-- One entry of the execution plan built in orchestrateTask: the named
connection, the tool, and its generated parameters (opaque here). -/
structure ExecutionStep where
  mcp : String
  tool : String
  params : String
  deriving DecidableEq, Repr

/-- The result recorded for one step: executeTask applied to the step. -/
def execStep (clients : List (String × MCPClient))
    (outcome : String → String → RpcOutcome) (dur : Nat)
    (s : ExecutionStep) : ExecutionResult :=
  (executeTask clients outcome dur s.mcp s.tool).1

/-- A default step, used only as the out-of-range fallback of getD. -/
def defaultStep : ExecutionStep := { mcp := "", tool := "", params := "" }

/-- Parallel mode: Promise.all keeps one slot per step and stores each
settled result at the index of its step, whatever order the promises settle
in.  The settle order is the list of indices in completion order; the
output array starts as unsettled slots. -/
def collectSettled (exec : ExecutionStep → ExecutionResult)
    (plan : List ExecutionStep) (order : List Nat) :
    List (Option ExecutionResult) :=
  order.foldl (fun arr i => arr.set i (some (exec (plan.getD i defaultStep))))
    (List.replicate plan.length none)

/-- Sequential mode (the else branch of step 4): each step is executed and
its result recorded before the next is issued.  The event trace logs the
issuance and the recording of each step index. -/
inductive SeqEv where
  | issue (n : Nat)
  | record (n : Nat)
  deriving DecidableEq, Repr

/-- The sequential loop, started at index i: issue the head step, record its
result, then continue with the rest.  executeTask always returns a result
(its try/catch turns every failure into an error result), so the loop never
stops early. -/
def runSequential (exec : ExecutionStep → ExecutionResult) :
    List ExecutionStep → Nat → List ExecutionResult × List SeqEv
  | [], _ => ([], [])
  | s :: rest, i =>
    let r := exec s
    let (rs, evs) := runSequential exec rest (i + 1)
    (r :: rs, SeqEv.issue i :: SeqEv.record i :: evs)

theorem foldl_set_getElem? (v : Nat → Option ExecutionResult) :
    ∀ (order : List Nat) (arr : List (Option ExecutionResult)) (j : Nat),
      (order.foldl (fun a i => a.set i (v i)) arr)[j]? =
        if j ∈ order ∧ j < arr.length then some (v j) else arr[j]? := by
  intro order
  induction order with
  | nil => intro arr j; simp
  | cons i rest ih =>
    intro arr j
    rw [List.foldl_cons, ih]
    by_cases hmem : j ∈ rest
    · by_cases hlen : j < arr.length
      · simp [hmem, hlen, List.length_set]
      · simp [hmem, hlen, List.length_set, List.getElem?_eq_none (l := arr.set i (v i))
          (by simpa [List.length_set] using Nat.le_of_not_lt hlen),
          List.getElem?_eq_none (l := arr) (Nat.le_of_not_lt hlen)]
    · by_cases hij : j = i
      · subst hij
        by_cases hlen : j < arr.length
        · simp [hmem, hlen, List.length_set, List.getElem?_set_eq_of_lt (v j) hlen]
        · simp [hmem, hlen, List.length_set, List.getElem?_eq_none (l := arr.set j (v j))
            (by simpa [List.length_set] using Nat.le_of_not_lt hlen),
            List.getElem?_eq_none (l := arr) (Nat.le_of_not_lt hlen)]
      · have hne : i ≠ j := fun h => hij h.symm
        simp [hmem, hij, List.length_set, List.getElem?_set_ne hne]

theorem collectSettled_eq (exec : ExecutionStep → ExecutionResult)
    (plan : List ExecutionStep) (order : List Nat)
    (h : ∀ i, i ∈ order ↔ i < plan.length) :
    collectSettled exec plan order = plan.map (fun s => some (exec s)) := by
  refine List.ext_getElem? ?_
  intro j
  unfold collectSettled
  rw [foldl_set_getElem?]
  by_cases hj : j < plan.length
  · rw [if_pos ⟨(h j).mpr hj, by simpa using hj⟩]
    rw [List.getElem?_map, List.getElem?_eq_getElem hj]
    simp [List.getD, List.getElem?_eq_getElem hj]
  · rw [if_neg (by
      rintro ⟨hmem, hlt⟩
      exact hj ((h j).mp hmem))]
    rw [List.getElem?_eq_none (by simpa using Nat.le_of_not_lt hj),
      List.getElem?_eq_none (by simpa using Nat.le_of_not_lt hj)]

theorem runSequential_results (exec : ExecutionStep → ExecutionResult) :
    ∀ (plan : List ExecutionStep) (i : Nat),
      (runSequential exec plan i).1 = plan.map exec := by
  intro plan
  induction plan with
  | nil => intro i; rfl
  | cons s rest ih => intro i; simp [runSequential, ih]

theorem flatMap_congr_mem {α β : Type} {l : List α} {f g : α → List β}
    (h : ∀ a ∈ l, f a = g a) : l.flatMap f = l.flatMap g := by
  induction l with
  | nil => rfl
  | cons x xs ih =>
    rw [List.flatMap_cons, List.flatMap_cons, h x (by simp),
      ih (fun a ha => h a (List.mem_cons_of_mem x ha))]

theorem runSequential_trace (exec : ExecutionStep → ExecutionResult) :
    ∀ (plan : List ExecutionStep) (i : Nat),
      (runSequential exec plan i).2 =
        (List.range plan.length).flatMap
          (fun k => [SeqEv.issue (i + k), SeqEv.record (i + k)]) := by
  intro plan
  induction plan with
  | nil => intro i; rfl
  | cons s rest ih =>
    intro i
    have hstep : (runSequential exec (s :: rest) i).2 =
        SeqEv.issue i :: SeqEv.record i :: (runSequential exec rest (i + 1)).2 := rfl
    rw [hstep, ih (i + 1), List.length_cons, List.range_succ_eq_map,
      List.flatMap_cons, List.flatMap_map]
    simp only [Nat.add_zero, List.cons_append, List.nil_append]
    refine congrArg (SeqEv.issue i :: ·) ?_
    refine congrArg (SeqEv.record i :: ·) ?_
    refine flatMap_congr_mem ?_
    intro k _
    simp [Function.comp, Nat.add_comm, Nat.add_left_comm, Nat.add_assoc]

/-- Claim C6: a fan-out batch yields exactly one ExecutionResult per input
step.  In parallel mode the settled results land in input-step order for
every settle order that is a permutation of the step indices; in sequential
mode the results are likewise one per step in order, the trace shows that
step k+1 is issued only after step k is recorded, and every step is issued
regardless of the failure of earlier steps (the outcome function is
arbitrary, so this includes failing steps). -/
theorem fanout_one_result_per_step (clients : List (String × MCPClient))
    (outcome : String → String → RpcOutcome) (dur : Nat)
    (plan : List ExecutionStep) (order : List Nat)
    (h : order.Perm (List.range plan.length)) :
    collectSettled (execStep clients outcome dur) plan order =
      plan.map (fun s => some (execStep clients outcome dur s)) ∧
    (runSequential (execStep clients outcome dur) plan 0).1 =
      plan.map (execStep clients outcome dur) ∧
    (runSequential (execStep clients outcome dur) plan 0).2 =
      (List.range plan.length).flatMap
        (fun k => [SeqEv.issue k, SeqEv.record k]) ∧
    (∀ k, k < plan.length →
      SeqEv.issue k ∈ (runSequential (execStep clients outcome dur) plan 0).2) := by
  have hmem : ∀ i, i ∈ order ↔ i < plan.length := by
    intro i
    rw [h.mem_iff, List.mem_range]
  refine ⟨collectSettled_eq _ plan order hmem, runSequential_results _ plan 0, ?_, ?_⟩
  · simpa using runSequential_trace (execStep clients outcome dur) plan 0
  · intro k hk
    rw [runSequential_trace]
    refine List.mem_flatMap.mpr ⟨k, List.mem_range.mpr hk, ?_⟩
    simp

/-- A connection that completed its handshake, for witnesses. -/
def readyClient : MCPClient :=
  { freshClient sampleConfig with isReady := true }

/-- A three-step demonstration plan whose middle step names a connection
that is not registered. -/
def demoPlan : List ExecutionStep :=
  [ { mcp := "github", tool := "create_repo", params := "p1" },
    { mcp := "trello", tool := "create_card", params := "p2" },
    { mcp := "github", tool := "create_branch", params := "p3" } ]

/-- The registry for the demonstration: only github is connected. -/
def demoClients : List (String × MCPClient) := [("github", readyClient)]

/-- Every issued call succeeds in the demonstration. -/
def demoOutcome : String → String → RpcOutcome := fun _ _ => RpcOutcome.ok "done"

/-- Witness for C6: three steps whose middle step targets a missing
connection, with the parallel promises settling in the order 2, 0, 1; the
output has one result per step in input order, the middle one an error. -/
theorem fanout_one_result_per_step_witness :
    ([2, 0, 1] : List Nat).Perm (List.range demoPlan.length) ∧
    collectSettled (execStep demoClients demoOutcome 0) demoPlan [2, 0, 1] =
      demoPlan.map (fun s => some (execStep demoClients demoOutcome 0 s)) ∧
    (runSequential (execStep demoClients demoOutcome 0) demoPlan 0).1.map
      ExecutionResult.status = ["success", "error", "success"] := by
  have h := fanout_one_result_per_step demoClients demoOutcome 0 demoPlan
    [2, 0, 1] (by decide)
  refine ⟨by decide, h.1, ?_⟩
  rw [h.2.1]
  decide

/-! ### On-demand health check (checkHealth, src/index.ts 771-826) -/

/-- One row of the health report. -/
structure HealthEntry where
  name : String
  status : String
  error : Option String
  deriving DecidableEq, Repr

/-- The body of the per-client loop of checkHealth: a client that is not
ready yields an unhealthy row without any probe; a ready client is probed
with a ping whose outcome decides the row.  The second component lists the
endpoints a probe call was issued to. -/
def checkHealthOne (ping : String → RpcOutcome) (c : MCPClient) :
    HealthEntry × List String :=
  if c.isReady then
    match ping c.config.name with
    | RpcOutcome.ok _ =>
      ({ name := c.config.name, status := "healthy", error := none },
       [c.config.name])
    | RpcOutcome.err m =>
      ({ name := c.config.name, status := "unhealthy", error := some m },
       [c.config.name])
  else
    ({ name := c.config.name, status := "unhealthy",
       error := some "Client not ready" }, [])

/-- checkHealth: with an mcp_name argument the clients to check are
[mcpClients.get(mcp_name)].filter(Boolean) — the empty list when the name is
unknown; without the argument, every registered client.  Returns the report
rows and the names probed. -/
def checkHealth (clients : List (String × MCPClient))
    (ping : String → RpcOutcome) (mcpName : Option String) :
    List HealthEntry × List String :=
  let toCheck : List MCPClient :=
    match mcpName with
    | some n =>
      match lookupClient clients n with
      | some c => [c]
      | none => []
    | none => clients.map Prod.snd
  (toCheck.map (fun c => (checkHealthOne ping c).1),
   (toCheck.map (fun c => (checkHealthOne ping c).2)).flatten)

/-- Claim C10: probing health with an mcp_name that names no registered
connection silently skips it — the results array is empty (no unhealthy row
is produced for the unknown name) and no probe call is issued to any
connection. -/
theorem unknown_health_target_skipped (clients : List (String × MCPClient))
    (ping : String → RpcOutcome) (name : String)
    (h : lookupClient clients name = none) :
    checkHealth clients ping (some name) = ([], []) := by
  simp [checkHealth, h]

/-- Witness for C10: a registry holding only github, probed for an unknown
name. -/
theorem unknown_health_target_skipped_witness :
    lookupClient demoClients "trello" = none ∧
    checkHealth demoClients (fun _ => RpcOutcome.ok "pong") (some "trello") =
      ([], []) := by
  exact ⟨rfl, unknown_health_target_skipped demoClients _ "trello" rfl⟩

/-! ### Wire format (sendMCPRequest, mcpClient/mcp_client.ts 26-60 and
src/index.ts 247-281; sendRequest of the modular orchestrator) -/

/-- JSON values, as produced by the object literals of the source. -/
inductive Json where
  | null
  | bool (b : Bool)
  | num (n : Int)
  | str (s : String)
  | arr (items : List Json)
  | obj (fields : List (String × Json))

/-- The escaping JSON.stringify applies inside string literals (the
characters relevant to this codebase). -/
def escapeJsonChar (c : Char) : String :=
  if c = '"' then "\\\""
  else if c = '\\' then "\\\\"
  else if c = '\n' then "\\n"
  else String.singleton c

/-- A JSON string literal: quoted and escaped. -/
def quoteJson (s : String) : String :=
  "\"" ++ String.join (s.toList.map escapeJsonChar) ++ "\""

mutual

/-- JSON.stringify on a value: compact form, object fields in insertion
order, as the Node built-in behaves on the request literals of the source. -/
def stringifyJson : Json → String
  | Json.null => "null"
  | Json.bool true => "true"
  | Json.bool false => "false"
  | Json.num n => toString n
  | Json.str s => quoteJson s
  | Json.arr xs => "[" ++ stringifyArr xs ++ "]"
  | Json.obj fs => "\x7b" ++ stringifyObj fs ++ "\x7d"

/-- Comma-separated array elements. -/
def stringifyArr : List Json → String
  | [] => ""
  | [x] => stringifyJson x
  | x :: y :: xs => stringifyJson x ++ "," ++ stringifyArr (y :: xs)

/-- Comma-separated key:value pairs. -/
def stringifyObj : List (String × Json) → String
  | [] => ""
  | [(k, v)] => quoteJson k ++ ":" ++ stringifyJson v
  | (k, v) :: f :: fs => quoteJson k ++ ":" ++ stringifyJson v ++ "," ++ stringifyObj (f :: fs)

end

/-- The request literal shared by every send path:
jsonrpc "2.0", id, method, params, in that field order. -/
def buildRequest (id : Nat) (method : String) (params : Json) : Json :=
  Json.obj [("jsonrpc", Json.str "2.0"), ("id", Json.num (id : Int)),
            ("method", Json.str method), ("params", params)]

/-- The bytes sendMCPRequest writes to the process input stream:
JSON.stringify(request) + a newline (src/index.ts 273 and
mcpClient/mcp_client.ts 52). -/
def sendMCPRequest_wire (id : Nat) (method : String) (params : Json) : String :=
  stringifyJson (buildRequest id method params) ++ "\n"

/-- The bytes sendRequest of the modular orchestrator writes: the same
serialized request followed by the empty string — no newline terminator.
This path carries that orchestrator's health-check pings and tools/list
requests. -/
def sendRequest_wire (id : Nat) (method : String) (params : Json) : String :=
  stringifyJson (buildRequest id method params) ++ ""

/-- Claim C4 evaluation (the code diverges from the claim on one send path):
the sendMCPRequest path always writes the serialized request terminated by a
newline, but the modular orchestrator's sendRequest path writes the same
serialization with no trailing newline — shown concretely on a ping
request, whose wire bytes end in a closing brace instead. -/
theorem wire_newline_divergence :
    (∀ (id : Nat) (method : String) (params : Json),
      sendMCPRequest_wire id method params =
        stringifyJson (buildRequest id method params) ++ "\n" ∧
      (sendMCPRequest_wire id method params).toList.getLast? = some '\n') ∧
    sendMCPRequest_wire 1 "ping" (Json.obj []) =
      "\x7b\"jsonrpc\":\"2.0\",\"id\":1,\"method\":\"ping\",\"params\":\x7b\x7d\x7d\n" ∧
    sendRequest_wire 1 "ping" (Json.obj []) =
      "\x7b\"jsonrpc\":\"2.0\",\"id\":1,\"method\":\"ping\",\"params\":\x7b\x7d\x7d" ∧
    (sendRequest_wire 1 "ping" (Json.obj [])).toList.getLast? ≠ some '\n' := by
  refine ⟨fun id method params => ⟨rfl, ?_⟩, by decide, by decide, by decide⟩
  show ((stringifyJson (buildRequest id method params)).toList ++ ['\n']).getLast? = some '\n'
  exact List.getLast?_concat _

/-! ### Frame reader (processMessages, src/index.ts 181-196; the stdout
handler of the modular process handler) -/

/-- The combined effect of lines = buffer.split("\n") followed by
buffer = lines.pop(): first component the complete newline-terminated
segments in order, second the trailing newline-less remainder. -/
def splitNlBuffer : List Char → List (List Char) × List Char
  | [] => ([], [])
  | c :: rest =>
    if c = '\n' then ([] :: (splitNlBuffer rest).1, (splitNlBuffer rest).2)
    else
      match splitNlBuffer rest with
      | ([], rem) => ([], c :: rem)
      | (s :: ss, rem) => ((c :: s) :: ss, rem)

/-- Prefixing a partial line onto the first segment of a later split. -/
def mergeSegs (p : List Char) : List (List Char) → List (List Char)
  | [] => []
  | s :: ss => (p ++ s) :: ss

/-- The remainder after prefixing a partial line: the partial line is still
in the buffer only when the later text completed no segment. -/
def mergeRem (p : List Char) (segs : List (List Char)) (rem : List Char) :
    List Char :=
  match segs with
  | [] => p ++ rem
  | _ :: _ => rem

theorem mergeSegs_nil (segs : List (List Char)) : mergeSegs [] segs = segs := by
  cases segs <;> simp [mergeSegs]

theorem mergeRem_nil (segs : List (List Char)) (rem : List Char) :
    mergeRem [] segs rem = rem := by
  cases segs <;> simp [mergeRem]

theorem splitNlBuffer_append (a b : List Char) :
    splitNlBuffer (a ++ b) =
      ((splitNlBuffer a).1 ++ mergeSegs (splitNlBuffer a).2 (splitNlBuffer b).1,
       mergeRem (splitNlBuffer a).2 (splitNlBuffer b).1 (splitNlBuffer b).2) := by
  induction a with
  | nil =>
    simp only [List.nil_append, splitNlBuffer]
    rw [mergeSegs_nil, mergeRem_nil]
  | cons c a ih =>
    rw [List.cons_append]
    by_cases hc : c = '\n'
    · subst hc
      show splitNlBuffer ('\n' :: (a ++ b)) = _
      simp only [splitNlBuffer, if_pos rfl, ih]
      rfl
    · rcases hA : splitNlBuffer a with ⟨segsA, remA⟩
      cases segsA with
      | cons s ss =>
        simp only [splitNlBuffer, if_neg hc, ih, hA, mergeSegs, mergeRem,
          List.cons_append]
      | nil =>
        rcases hB : (splitNlBuffer b) with ⟨segsB, remB⟩
        cases segsB with
        | nil =>
          simp only [splitNlBuffer, if_neg hc, ih, hA, hB, mergeSegs, mergeRem,
            List.nil_append, List.cons_append]
        | cons t ts =>
          simp only [splitNlBuffer, if_neg hc, ih, hA, hB, mergeSegs, mergeRem,
            List.nil_append, List.cons_append]

theorem splitNlBuffer_rem_no_nl : ∀ l : List Char, '\n' ∉ (splitNlBuffer l).2 := by
  intro l
  induction l with
  | nil => simp [splitNlBuffer]
  | cons c rest ih =>
    by_cases hc : c = '\n'
    · subst hc
      simpa [splitNlBuffer] using ih
    · rcases hA : splitNlBuffer rest with ⟨segs, rem⟩
      rw [hA] at ih
      cases segs with
      | nil =>
        simp only [splitNlBuffer, if_neg hc, hA]
        intro hmem
        rcases List.mem_cons.mp hmem with h | h
        · exact hc h.symm
        · exact ih h
      | cons s ss =>
        simp only [splitNlBuffer, if_neg hc, hA]
        exact ih

theorem splitNlBuffer_of_no_nl : ∀ l : List Char, '\n' ∉ l → splitNlBuffer l = ([], l) := by
  intro l
  induction l with
  | nil => intro _; rfl
  | cons c rest ih =>
    intro h
    have hc : c ≠ '\n' := fun hcc => h (hcc ▸ List.mem_cons_self c rest)
    have hrest : '\n' ∉ rest := fun hm => h (List.mem_cons_of_mem c hm)
    simp only [splitNlBuffer, if_neg hc, ih hrest]

/-- JS String.prototype.trim on a segment. -/
def trimChars (l : List Char) : List Char :=
  ((l.dropWhile Char.isWhitespace).reverse.dropWhile Char.isWhitespace).reverse

/-- The loop body of processMessages applied to the complete segments: a
segment whose trim is empty is skipped; otherwise the trimmed text is given
to JSON.parse (an arbitrary function here, returning none on a parse error,
in which case the segment is dropped and the loop continues). -/
def handleLines (parse : List Char → Option (List Char))
    (segs : List (List Char)) : List (List Char) :=
  segs.filterMap
    (fun line => if (trimChars line).isEmpty then none else parse (trimChars line))

/-- processMessages on one inbound chunk: append the chunk to the buffer,
split on newlines, keep the trailing remainder as the new buffer, and handle
every complete segment.  Returns the emitted messages and the new buffer. -/
def processChunk (parse : List Char → Option (List Char))
    (buf chunk : List Char) : List (List Char) × List Char :=
  (handleLines parse (splitNlBuffer (buf ++ chunk)).1,
   (splitNlBuffer (buf ++ chunk)).2)

/-- The frame reader over a sequence of chunks, from the fresh empty buffer,
accumulating the emitted messages of every chunk in order. -/
def feedChunks (parse : List Char → Option (List Char))
    (chunks : List (List Char)) : List (List Char) × List Char :=
  chunks.foldl
    (fun st chunk =>
      ((st.1 ++ (processChunk parse st.2 chunk).1,
        (processChunk parse st.2 chunk).2)))
    ([], [])

theorem feedChunks_from (parse : List Char → Option (List Char)) :
    ∀ (chunks : List (List Char)) (es : List (List Char)) (buf : List Char),
      '\n' ∉ buf →
      chunks.foldl
        (fun st chunk =>
          ((st.1 ++ (processChunk parse st.2 chunk).1,
            (processChunk parse st.2 chunk).2)))
        (es, buf) =
      (es ++ handleLines parse (splitNlBuffer (buf ++ chunks.flatten)).1,
       (splitNlBuffer (buf ++ chunks.flatten)).2) := by
  intro chunks
  induction chunks with
  | nil =>
    intro es buf h
    simp [splitNlBuffer_of_no_nl buf h, handleLines]
  | cons ch chs ih =>
    intro es buf h
    rw [List.foldl_cons]
    rcases hS : splitNlBuffer (buf ++ ch) with ⟨segs1, rem1⟩
    have hrem1 : '\n' ∉ rem1 := by
      have := splitNlBuffer_rem_no_nl (buf ++ ch)
      rwa [hS] at this
    have hstep : processChunk parse buf ch = (handleLines parse segs1, rem1) := by
      simp [processChunk, hS]
    rw [hstep]
    rw [ih (es ++ handleLines parse segs1) rem1 hrem1]
    have hsplit2 : splitNlBuffer (rem1 ++ chs.flatten) =
        (mergeSegs rem1 (splitNlBuffer chs.flatten).1,
         mergeRem rem1 (splitNlBuffer chs.flatten).1 (splitNlBuffer chs.flatten).2) := by
      rw [splitNlBuffer_append, splitNlBuffer_of_no_nl rem1 hrem1]
      simp
    have hsplit1 : splitNlBuffer (buf ++ (ch :: chs).flatten) =
        (segs1 ++ mergeSegs rem1 (splitNlBuffer chs.flatten).1,
         mergeRem rem1 (splitNlBuffer chs.flatten).1 (splitNlBuffer chs.flatten).2) := by
      rw [List.flatten_cons, ← List.append_assoc, splitNlBuffer_append, hS]
    rw [hsplit1, hsplit2]
    simp [handleLines, List.filterMap_append, List.append_assoc]

/-- Claim C7: the frame reader is chunking-invariant.  For any two ways of
cutting the same inbound text into chunks, feeding the chunks through the
buffer-append / newline-split / handle-each-segment / keep-remainder loop
emits the same messages and leaves the same buffer; moreover both equal the
handling of the whole text at once: every complete newline-terminated
segment is handled in order (parsed and emitted when its trim is nonempty
and the parse succeeds) and the trailing newline-less remainder is the final
buffer.  This holds for every parse function. -/
theorem frame_reader_chunking_invariance
    (parse : List Char → Option (List Char)) (cs ds : List (List Char))
    (h : cs.flatten = ds.flatten) :
    feedChunks parse cs = feedChunks parse ds ∧
    feedChunks parse cs =
      (handleLines parse (splitNlBuffer cs.flatten).1,
       (splitNlBuffer cs.flatten).2) := by
  have h1 := feedChunks_from parse cs [] [] (by simp)
  have h2 := feedChunks_from parse ds [] [] (by simp)
  unfold feedChunks
  rw [h1, h2, h]
  simp

/-- Witness for C7: the text "abc\nd" cut as ["ab", "c\nd"] and as
["abc\n", "d"] produces the same single emitted message "abc" with final
buffer "d", with the identity parse. -/
theorem frame_reader_chunking_invariance_witness :
    ([['a', 'b'], ['c', '\n', 'd']] : List (List Char)).flatten =
      ([['a', 'b', 'c', '\n'], ['d']] : List (List Char)).flatten ∧
    feedChunks some [['a', 'b'], ['c', '\n', 'd']] =
      feedChunks some [['a', 'b', 'c', '\n'], ['d']] ∧
    feedChunks some [['a', 'b'], ['c', '\n', 'd']] =
      ([['a', 'b', 'c']], ['d']) := by
  have h := frame_reader_chunking_invariance some
    [['a', 'b'], ['c', '\n', 'd']] [['a', 'b', 'c', '\n'], ['d']] (by decide)
  exact ⟨by decide, h.1, by decide⟩
